import Mathlib

/-!
Verification of the TeX `ParseUtil` module (src/mathjax3-ts/input/tex/ParseUtil.ts).

The module's algorithmic core is embedded shallowly:

* `internalMath` (lines 209-298): the mixed text/math scanner.  Strings are
  modelled as `List Char`; the character-indexed `while` loop with its local
  variables `i`, `k`, `match`, `braces`, `mml` becomes the recursive
  `scanLoop`, where the slice `text.slice(k, i)` is carried directly as the
  (reversed) list `pending` of span characters consumed so far.  This also
  renders the in-place deletion of a stripped escape character (line 277)
  as simply not adding the backslash to the span.  The collaborator calls
  `new TexParser(s).mml()` (the island parser) and `TreeHelper.createNode`
  (node construction) are abstracted by the `Segment` type, which records
  exactly the substring handed to each collaborator: `Segment.texAtom s`
  for a math island parsed from `s`, `Segment.mtext s` for a text node
  with (whitespace-normalised) content `s`.  The final `mstyle`/`mrow`
  wrapping (lines 290-296) is pure node construction by the excluded
  Tree Builder collaborator and is not modelled; the scanner's deliverable
  is its ordered segment list.

* `substituteArgs` / `addArgs` (lines 347-398): direct translation; thrown
  `TexError`s become the `Except.error` branch carrying the error id.

* `matchDimen` / `dimen2em` / `Em` (lines 45-98): the two anchored regular
  expressions `dimenEnd`/`dimenRest` are deterministic on their grammar
  (all alternations are mutually exclusive and no backtracking can change
  the outcome), so they are embedded as direct scanners.  JavaScript
  numbers are modelled as exact rationals `ℚ`; every numeric fact proved
  below involves only values on which double arithmetic is exact or agrees
  with the rational result.
-/

/-- Characters of a string literal, the model of a JavaScript string. -/
def chars (s : String) : List Char := s.data

/-- Character class of the JavaScript regular-expression escape `\s`
(ECMAScript WhiteSpace ∪ LineTerminator), by code point. -/
def isJsSpace (c : Char) : Bool :=
  let n := c.toNat
  n = 9 || n = 10 || n = 11 || n = 12 || n = 13 || n = 32 || n = 160 ||
    n = 5760 || (8192 ≤ n && n ≤ 8202) || n = 8232 || n = 8233 ||
    n = 8239 || n = 8287 || n = 12288 || n = 65279

/-- Character class of the JavaScript regular-expression escape `\d`. -/
def isDigitChar (c : Char) : Bool := 48 ≤ c.toNat && c.toNat ≤ 57

/-- Character class of `[a-z]` under the `i` flag (ASCII letters). -/
def isAsciiLetter (c : Char) : Bool :=
  (65 ≤ c.toNat && c.toNat ≤ 90) || (97 ≤ c.toNat && c.toNat ≤ 122)

/-- Error identifiers of the `TexError`s thrown by ParseUtil
(`throw new TexError([id, message])`). -/
inductive TexError where
  | MathNotTerminated
  | IllegalMacroParam
  | MaxBufferSize
deriving DecidableEq

deriving instance DecidableEq for Except

/-- The value of the scanner's `match` variable: `''`, `'$'`, `'}'` or `')'`
(the spec's modes Plain, DollarMath, RefBraceMath, ParenMath). -/
inductive Mode where
  | plain
  | dollar
  | brace
  | paren
deriving DecidableEq

/-- One element of the scanner's `mml` output array.  `mtext s` stands for
`TreeHelper.createNode('mtext', ...)` over normalised text content `s`
(a Text segment); `texAtom s` stands for a `TeXAtom` node wrapping
`new TexParser(s).mml()` (a math-island segment carrying the exact
substring handed to the island parser). -/
inductive Segment where
  | mtext (content : List Char)
  | texAtom (src : List Char)
deriving DecidableEq

/-- The non-breaking space used by text normalisation (line 300). -/
def NBSP : Char := '\u00A0'

/-- Model of `internalText` minus node construction (lines 302-308):
`text.replace(/^\s+/, NBSP).replace(/\s+$/, NBSP)`. -/
def internalText (text : List Char) : List Char :=
  let t1 := match text with
    | [] => []
    | c :: _ => if isJsSpace c then NBSP :: text.dropWhile isJsSpace else text
  let r := t1.reverse
  let t2 := match r with
    | [] => []
    | c :: _ => if isJsSpace c then NBSP :: r.dropWhile isJsSpace else r
  t2.reverse

/-- Strip a literal prefix from a character list, returning the remainder. -/
def stripPrefixChars : List Char → List Char → Option (List Char)
  | [], s => some s
  | _ :: _, [] => none
  | p :: ps, c :: cs => if p = c then stripPrefixChars ps cs else none

/-- Match `ref\s*\{` at the front of `s`; on success return the matched
characters and the remainder. -/
def refAfter (s : List Char) : Option (List Char × List Char) :=
  match stripPrefixChars ['r', 'e', 'f'] s with
  | none => none
  | some r1 =>
    let sp := r1.takeWhile isJsSpace
    match r1.dropWhile isJsSpace with
    | '\x7b' :: r3 => some (['r', 'e', 'f'] ++ sp ++ ['\x7b'], r3)
    | _ => none

/-- Match the regular expression `/^(eq)?ref\s*\{/` (line 251) at the front
of `s`; on success return the matched characters (the source's
`RegExp['$&']`) and the remainder.  The `(eq)?` group is tried greedily
first, exactly as the regex engine does. -/
def refMatch (s : List Char) : Option (List Char × List Char) :=
  match stripPrefixChars ['e', 'q'] s with
  | some r =>
    (match refAfter r with
     | some (mt, rest) => some (['e', 'q'] ++ mt, rest)
     | none => refAfter s)
  | none => refAfter s

/-- The four delimiter-trigger characters, the class `[${}\\]` used both by
the fast-path test (line 213) and the escape-stripping branch (line 274). -/
def isTriggerChar (c : Char) : Bool :=
  c = '$' || c = '\x7b' || c = '\x7d' || c = '\\'

/-- Fast-path test of line 213: `text.match(/\\?[${}\\]|\\\(|\\(eq)?ref\s*\{/)`
matches precisely when some character of `text` lies in `[${}\\]` (every
alternative of the regex contains such a character, and a bare one
already matches the first alternative). -/
def hasTriggerChar (s : List Char) : Bool := s.any isTriggerChar

/-- Flush the pending text span (held in reverse) as an `mtext` segment,
the model of `if (k < i - 1) mml.push(internalText(text.slice(k, i - 1)))`:
the guard `k < i - 1` says exactly that the span is nonempty. -/
def flushText (pending : List Char) (mml : List Segment) : List Segment :=
  if pending.isEmpty then mml
  else mml ++ [Segment.mtext (internalText pending.reverse)]

/-- The scanner's while loop (lines 214-281) together with the terminator
check (lines 282-285).  Arguments: remaining input, pending span
characters in reverse (the slice from `k` to the cursor), the `match`
mode, the `braces` counter and the `mml` accumulator.  On success the
final pending span and accumulator are returned.  `fuel` is a step bound:
every iteration consumes at least one input character, so any
`fuel > rest.length` is sufficient and the `0` arm is unreachable in
`internalMathSegments` below. -/
def scanLoop : Nat → List Char → List Char → Mode → Nat → List Segment →
    Except TexError (List Char × List Segment)
  | 0, _, _, _, _, _ => Except.error TexError.MathNotTerminated
  | fuel + 1, rest, pending, m, braces, mml =>
    match rest with
    | [] =>
      if m ≠ Mode.plain then Except.error TexError.MathNotTerminated
      else Except.ok (pending, mml)
    | c :: rest =>
      if c = '$' then
        if m = Mode.dollar ∧ braces = 0 then
          scanLoop fuel rest [] Mode.plain braces
            (mml ++ [Segment.texAtom pending.reverse])
        else if m = Mode.plain then
          scanLoop fuel rest [] Mode.dollar braces (flushText pending mml)
        else scanLoop fuel rest (c :: pending) m braces mml
      else if c = '\x7b' ∧ m ≠ Mode.plain then
        scanLoop fuel rest (c :: pending) m (braces + 1) mml
      else if c = '\x7d' then
        if m = Mode.brace ∧ braces = 0 then
          scanLoop fuel rest [] Mode.plain braces
            (mml ++ [Segment.texAtom (pending.reverse ++ [c])])
        else if m ≠ Mode.plain then
          scanLoop fuel rest (c :: pending) m (braces - 1) mml
        else scanLoop fuel rest (c :: pending) m braces mml
      else if c = '\\' then
        match (if m = Mode.plain then refMatch rest else none) with
        | some (matched, rest2) =>
          scanLoop fuel rest2 (matched.reverse ++ ['\\']) Mode.brace braces
            (flushText pending mml)
        | none =>
          match rest with
          | [] => scanLoop fuel [] (c :: pending) m braces mml
          | c2 :: rest2 =>
            if c2 = '(' ∧ m = Mode.plain then
              scanLoop fuel rest2 [] Mode.paren braces (flushText pending mml)
            else if c2 = ')' ∧ m = Mode.paren ∧ braces = 0 then
              scanLoop fuel rest2 [] Mode.plain braces
                (mml ++ [Segment.texAtom pending.reverse])
            else if isTriggerChar c2 ∧ m = Mode.plain then
              scanLoop fuel rest2 (c2 :: pending) m braces mml
            else scanLoop fuel rest2 (c2 :: '\\' :: pending) m braces mml
      else scanLoop fuel rest (c :: pending) m braces mml

/-- The segment sequence produced by `internalMath` (lines 209-289): the
fast-path test, the scan loop, and the final flush of the trailing text
span (`if (k < text.length) mml.push(internalText(text.slice(k)))`). -/
def internalMathSegments (text : List Char) : Except TexError (List Segment) :=
  if hasTriggerChar text then
    match scanLoop (text.length + 1) text [] Mode.plain 0 [] with
    | Except.error e => Except.error e
    | Except.ok (pending, mml) => Except.ok (flushText pending mml)
  else Except.ok (flushText text.reverse [])

/-- Maximum size of TeX string to process: `MAXBUFFER = 5 * 1024` (line 347). -/
def MAXBUFFER : Nat := 5 * 1024

/-- Test of `s2.match(/^[a-z]/i)` in `addArgs` (line 389). -/
def beginsWithLetter : List Char → Bool
  | [] => false
  | c :: _ => isAsciiLetter c

/-- Test of `s1.match(/(^|[^\\])(\\\\)*\\[a-z]+$/i)` in `addArgs` (line 389):
`s1` ends in at least one ASCII letter preceded by an odd-length maximal
run of backslashes (an unfinished control word). -/
def endsWithCtrlWord (s : List Char) : Bool :=
  let r := s.reverse
  let letters := r.takeWhile isAsciiLetter
  !letters.isEmpty &&
    ((r.dropWhile isAsciiLetter).takeWhile (fun c => c = '\\')).length % 2 = 1

/-- Model of `addArgs` (lines 387-398): concatenate two expansion pieces,
inserting a guard space after a trailing control word, and fail with
`MaxBufferSize` when the result would exceed `MAXBUFFER`. -/
def addArgs (s1 s2 : List Char) : Except TexError (List Char) :=
  let s1 := if beginsWithLetter s2 ∧ endsWithCtrlWord s1 then s1 ++ [' '] else s1
  if s1.length + s2.length > MAXBUFFER then Except.error TexError.MaxBufferSize
  else Except.ok (s1 ++ s2)

/-- Test of `c.match(/[1-9]/)` in `substituteArgs` (line 367). -/
def isParamDigit (c : Char) : Bool := 49 ≤ c.toNat && c.toNat ≤ 57

/-- The while loop of `substituteArgs` (lines 357-378).  `text` and
`newstring` are the two accumulators of the source; `str.charAt(i)` past
the end of the string (the empty JavaScript string) is the `[]` cases. -/
def substLoop (args : List (List Char)) :
    List Char → List Char → List Char → Except TexError (List Char)
  | [], text, newstring => addArgs newstring text
  | '\\' :: rest, text, newstring =>
    (match rest with
     | [] => substLoop args [] (text ++ ['\\']) newstring
     | c2 :: rest2 => substLoop args rest2 (text ++ ['\\', c2]) newstring)
  | '#' :: rest, text, newstring =>
    (match rest with
     | [] => Except.error TexError.IllegalMacroParam
     | c2 :: rest2 =>
       if c2 = '#' then substLoop args rest2 (text ++ [c2]) newstring
       else if isParamDigit c2 ∧ c2.toNat - 48 ≤ args.length then
         (addArgs newstring text).bind fun ns1 =>
           (addArgs ns1 (args.getD (c2.toNat - 48 - 1) [])).bind fun ns2 =>
             substLoop args rest2 [] ns2
       else Except.error TexError.IllegalMacroParam)
  | c :: rest, text, newstring => substLoop args rest (text ++ [c]) newstring

/-- Model of `substituteArgs` (lines 352-380): expand the placeholder
markers `#1`…`#9` and `##` in `str` against `args`. -/
def substituteArgs (args : List (List Char)) (str : List Char) :
    Except TexError (List Char) :=
  substLoop args str [] []

/-- The sign-and-digits group `num = ([-+]?([.,]\d+|\d+([.,]\d*)?))`
(line 58), matched at the front of `s`; on success return the matched
characters (capture group 1) and the remainder.  The two alternatives are
distinguished by the first character after the sign, and no backtracking
into the greedy digit runs can change the overall outcome because the
following regex pieces (`\s*`, the unit) accept no digit, point or comma. -/
def parseNumAfterSign (sgn s1 : List Char) : Option (List Char × List Char) :=
  match s1 with
  | c :: rest =>
    if c = '.' ∨ c = ',' then
      let ds := rest.takeWhile isDigitChar
      if ds.isEmpty then none
      else some (sgn ++ c :: ds, rest.dropWhile isDigitChar)
    else if isDigitChar c then
      let ds := s1.takeWhile isDigitChar
      match s1.dropWhile isDigitChar with
      | c2 :: rest2 =>
        if c2 = '.' ∨ c2 = ',' then
          some (sgn ++ ds ++ c2 :: rest2.takeWhile isDigitChar,
                rest2.dropWhile isDigitChar)
        else some (sgn ++ ds, c2 :: rest2)
      | [] => some (sgn ++ ds, [])
    else none
  | [] => none

/-- Entry point of the `num` group: the optional sign, then the two
alternatives handled by `parseNumAfterSign`. -/
def parseNum (s : List Char) : Option (List Char × List Char) :=
  match s with
  | c :: rest =>
    if c = '-' ∨ c = '+' then parseNumAfterSign [c] rest
    else parseNumAfterSign [] s
  | [] => parseNumAfterSign [] []

/-- The nine unit alternatives of `unit = (pt|em|ex|mu|px|mm|cm|in|pc)`
(line 59), in source order. -/
def unitTokens : List (List Char) :=
  [chars "pt", chars "em", chars "ex", chars "mu", chars "px",
   chars "mm", chars "cm", chars "in", chars "pc"]

/-- Match the unit group at the front of `s`: all alternatives are distinct
two-character literals, so at most one can match. -/
def parseUnit (s : List Char) : Option (List Char × List Char) :=
  match s with
  | a :: b :: rest => if [a, b] ∈ unitTokens then some ([a, b], rest) else none
  | _ => none

/-- The regular expression `dimenEnd = ^\s*num\s*unit\s*$` (line 60) matched
against `s`; on success return capture groups 1 (the numeral) and 4 (the
unit) and the length of the full match, which for this doubly anchored
pattern is the whole input. -/
def matchDimenEnd (s : List Char) : Option (List Char × List Char × Nat) :=
  match parseNum (s.dropWhile isJsSpace) with
  | none => none
  | some (numStr, r1) =>
    match parseUnit (r1.dropWhile isJsSpace) with
    | none => none
    | some (u, r3) =>
      if (r3.dropWhile isJsSpace).isEmpty then some (numStr, u, s.length)
      else none

/-- The regular expression `dimenRest = ^\s*num\s*unit ?` (line 61) matched
against `s`: as `dimenEnd` but unanchored at the right, with one optional
literal space consumed after the unit; the returned length is the number
of characters matched. -/
def matchDimenRest (s : List Char) : Option (List Char × List Char × Nat) :=
  match parseNum (s.dropWhile isJsSpace) with
  | none => none
  | some (numStr, r1) =>
    match parseUnit (r1.dropWhile isJsSpace) with
    | none => none
    | some (u, r3) =>
      let r4 := match r3 with
        | ' ' :: t => t
        | _ => r3
      some (numStr, u, s.length - r4.length)

/-- Model of `match[1].replace(/,/, '.')` (line 75): replace the first comma
by a point. -/
def replaceFirstComma : List Char → List Char
  | [] => []
  | c :: rest => if c = ',' then '.' :: rest else c :: replaceFirstComma rest

/-- Model of `matchDimen` (lines 72-77): `[null, null, 0]` becomes `none`,
a match becomes `some` of normalised numeral, unit and matched length.
The source's `rest` parameter defaults to `false`; callers of the model
pass it explicitly. -/
def matchDimen (dim : List Char) (rest : Bool) :
    Option (List Char × List Char × Nat) :=
  (if rest then matchDimenRest dim else matchDimenEnd dim).map
    (fun t => (replaceFirstComma t.1, t.2.1, t.2.2))

/-- Conversion constant `emPerInch = 7.2` (line 45). -/
def emPerInch : ℚ := 7.2

/-- Conversion constant `pxPerInch = 72` (line 46). -/
def pxPerInch : ℚ := 72

/-- The unit conversion table `UNIT_CASES` (lines 47-57), keyed by the unit
token; an unknown key is the absent (`undefined`) entry. -/
def UNIT_CASES (u : List Char) : Option (ℚ → ℚ) :=
  if u = chars "em" then some (fun m => m)
  else if u = chars "ex" then some (fun m => m * 0.43)
  else if u = chars "pt" then some (fun m => m / 10)
  else if u = chars "pc" then some (fun m => m * 1.2)
  else if u = chars "px" then some (fun m => m * emPerInch / pxPerInch)
  else if u = chars "in" then some (fun m => m * emPerInch)
  else if u = chars "cm" then some (fun m => m * emPerInch / 2.54)
  else if u = chars "mm" then some (fun m => m * emPerInch / 25.4)
  else if u = chars "mu" then some (fun m => m / 18)
  else none

/-- Decimal value of a digit run. -/
def digitsToNat (ds : List Char) : Nat :=
  ds.foldl (fun a c => 10 * a + (c.toNat - 48)) 0

/-- The discrete part of `parseFloat` on the numeral strings produced by
`matchDimen` (optional sign, integer digits, optional point and fraction
digits): sign flag, integer value, fraction value and fraction length. -/
def parseFloatParts (s : List Char) : Bool × Nat × Nat × Nat :=
  let (neg, s1) : Bool × List Char :=
    match s with
    | '-' :: r => (true, r)
    | '+' :: r => (false, r)
    | _ => (false, s)
  let ip := digitsToNat (s1.takeWhile isDigitChar)
  match s1.dropWhile isDigitChar with
  | '.' :: fs =>
    let f := fs.takeWhile isDigitChar
    (neg, ip, digitsToNat f, f.length)
  | _ => (neg, ip, 0, 0)

/-- Rational value of `parseFloat` on a numeral string. -/
def parseFloatQ (s : List Char) : ℚ :=
  let (neg, ip, fn, fl) := parseFloatParts s
  (if neg then -1 else 1) * ((ip : ℚ) + (fn : ℚ) / (10 : ℚ) ^ fl)

/-- Model of `dimen2em` (lines 85-90): `parseFloat(value || '1')` keeps the
source's default numeral `'1'` for an absent value, and an absent unit
entry yields `0`. -/
def dimen2em (dim : List Char) : ℚ :=
  let md := matchDimen dim false
  let value : Option (List Char) := md.map (fun t => t.1)
  let m : ℚ := parseFloatQ (value.getD (chars "1"))
  match md.bind (fun t => UNIT_CASES t.2.1) with
  | some func => func m
  | none => 0

/-- The rounding step of `Number.prototype.toFixed(3)` on the magnitude:
the integer closest to `|q| * 1000`, ties toward the larger. -/
def toFixed3Nat (q : ℚ) : Nat := (Int.floor (|q| * 1000 + 1 / 2)).toNat

/-- Decimal digits of `n` left-padded with zeros to width 3, the fraction
part rendered by `toFixed(3)`. -/
def pad3 (n : Nat) : List Char :=
  let d := Nat.toDigits 10 n
  List.replicate (3 - d.length) '0' ++ d

/-- Rendering of `m.toFixed(3)`: optional minus sign, integer digits, point,
three fraction digits. -/
def toFixed3 (q : ℚ) : List Char :=
  let sgn : List Char := if q < 0 then ['-'] else []
  let n := toFixed3Nat q
  sgn ++ Nat.toDigits 10 (n / 1000) ++ '.' :: pad3 (n % 1000)

/-- Model of `.replace(/\.?0+$/, '')` (line 97): remove the trailing run of
zeros, and the decimal point too when the whole fraction was zeros. -/
def stripFixed (s : List Char) : List Char :=
  let r := s.reverse
  if (r.takeWhile (fun c => c = '0')).isEmpty then s
  else
    match r.dropWhile (fun c => c = '0') with
    | '.' :: r2 => r2.reverse
    | r1 => r1.reverse

/-- Model of `Em` (lines 93-98): magnitudes below the noise threshold
collapse to `0em`, others render as stripped `toFixed(3)` plus `em`. -/
def Em (m : ℚ) : List Char :=
  if |m| < 0.0006 then chars "0em"
  else stripFixed (toFixed3 m) ++ chars "em"

/-! ## General lemmas about the embedded definitions -/

/-- A `takeWhile` over an append keeps a wholly satisfying left part. -/
theorem takeWhile_append_all {p : Char → Bool} {l : List Char} (r : List Char)
    (h : ∀ c ∈ l, p c = true) : (l ++ r).takeWhile p = l ++ r.takeWhile p := by
  induction l with
  | nil => simp
  | cons a t ih => simp_all [List.takeWhile]

/-- A `dropWhile` over an append skips a wholly satisfying left part. -/
theorem dropWhile_append_all {p : Char → Bool} {l : List Char} (r : List Char)
    (h : ∀ c ∈ l, p c = true) : (l ++ r).dropWhile p = r.dropWhile p := by
  induction l with
  | nil => simp
  | cons a t ih => simp_all [List.dropWhile]

/-- A digit character is none of the separator, sign and space characters. -/
theorem digit_excludes {c : Char} (h : isDigitChar c = true) :
    isJsSpace c = false ∧ c ≠ '.' ∧ c ≠ ',' ∧ c ≠ '-' ∧ c ≠ '+' := by
  simp only [isDigitChar, Bool.and_eq_true, decide_eq_true_eq] at h
  refine ⟨?_, ?_, ?_, ?_, ?_⟩
  · simp only [isJsSpace, Bool.or_eq_false_iff, decide_eq_false_iff_not,
      Bool.and_eq_false_iff, decide_eq_false_iff_not]
    omega
  all_goals (intro he; subst he; simp at h)

/-- Behaviour of the digits-first alternative of the `num` group on a
well-formed numeral followed by a non-extending remainder. -/
theorem parseNumAfterSign_spec (sg ds sepFs : List Char) (a : Char) (t : List Char)
    (hds : ds ≠ []) (hdig : ∀ c ∈ ds, isDigitChar c = true)
    (hsep : sepFs = [] ∨ ∃ c fs, (c = '.' ∨ c = ',') ∧
      (∀ d ∈ fs, isDigitChar d = true) ∧ sepFs = c :: fs)
    (ha1 : isDigitChar a = false) (ha2 : a ≠ '.') (ha3 : a ≠ ',') :
    parseNumAfterSign sg (ds ++ sepFs ++ (a :: t)) =
      some (sg ++ ds ++ sepFs, a :: t) := by
  obtain ⟨d, ds', rfl⟩ : ∃ d ds', ds = d :: ds' := by
    cases ds with
    | nil => exact absurd rfl hds
    | cons d ds' => exact ⟨d, ds', rfl⟩
  obtain ⟨-, hd2, hd3, -, -⟩ := digit_excludes (hdig d (by simp))
  have tw : ((d :: ds') ++ (sepFs ++ (a :: t))).takeWhile isDigitChar =
      (d :: ds') ++ (sepFs ++ (a :: t)).takeWhile isDigitChar :=
    takeWhile_append_all _ hdig
  have dw : ((d :: ds') ++ (sepFs ++ (a :: t))).dropWhile isDigitChar =
      (sepFs ++ (a :: t)).dropWhile isDigitChar :=
    dropWhile_append_all _ hdig
  rcases hsep with rfl | ⟨c, fs, hc, hfs, rfl⟩
  · simp only [List.nil_append, List.append_nil, List.cons_append,
      List.append_assoc] at tw dw ⊢
    simp only [parseNumAfterSign]
    rw [if_neg (by simp [hd2, hd3]), if_pos (hdig d (by simp))]
    rw [show d :: (ds' ++ a :: t) = (d :: ds') ++ (a :: t) by simp] at tw dw ⊢
    rw [tw, dw]
    simp only [List.takeWhile_cons, ha1, Bool.false_eq_true, if_false,
      List.dropWhile_cons, List.append_nil]
    rw [if_neg (by simp [ha2, ha3])]
  · have hcd : isDigitChar c = false := by
      rcases hc with rfl | rfl <;> decide
    have twf : (fs ++ (a :: t)).takeWhile isDigitChar = fs := by
      rw [takeWhile_append_all _ hfs]
      simp [List.takeWhile_cons, ha1]
    have dwf : (fs ++ (a :: t)).dropWhile isDigitChar = a :: t := by
      rw [dropWhile_append_all _ hfs]
      simp [List.dropWhile_cons, ha1]
    simp only [List.cons_append, List.append_assoc] at tw dw ⊢
    simp only [parseNumAfterSign]
    rw [if_neg (by simp [hd2, hd3]), if_pos (hdig d (by simp))]
    rw [show d :: (ds' ++ c :: (fs ++ a :: t)) = (d :: ds') ++ (c :: (fs ++ a :: t))
      by simp] at tw dw ⊢
    rw [tw, dw]
    simp only [List.takeWhile_cons, hcd, Bool.false_eq_true, if_false,
      List.dropWhile_cons, List.append_nil]
    rw [if_pos hc, twf, dwf]
    simp

/-- The full `num` group on a well-formed numeral with optional sign. -/
theorem parseNum_valid (sgn ds sepFs : List Char) (a : Char) (t : List Char)
    (hsgn : sgn = [] ∨ sgn = ['+'] ∨ sgn = ['-'])
    (hds : ds ≠ []) (hdig : ∀ c ∈ ds, isDigitChar c = true)
    (hsep : sepFs = [] ∨ ∃ c fs, (c = '.' ∨ c = ',') ∧
      (∀ d ∈ fs, isDigitChar d = true) ∧ sepFs = c :: fs)
    (ha1 : isDigitChar a = false) (ha2 : a ≠ '.') (ha3 : a ≠ ',') :
    parseNum (sgn ++ ds ++ sepFs ++ (a :: t)) =
      some (sgn ++ ds ++ sepFs, a :: t) := by
  have spec := fun sg =>
    parseNumAfterSign_spec sg ds sepFs a t hds hdig hsep ha1 ha2 ha3
  obtain ⟨d, ds', rfl⟩ : ∃ d ds', ds = d :: ds' := by
    cases ds with
    | nil => exact absurd rfl hds
    | cons d ds' => exact ⟨d, ds', rfl⟩
  obtain ⟨-, -, -, hd4, hd5⟩ := digit_excludes (hdig d (by simp))
  rcases hsgn with rfl | rfl | rfl
  · simp only [List.nil_append, List.cons_append, List.append_assoc]
    simp only [parseNum]
    rw [if_neg (by simp [hd4, hd5])]
    have := spec []
    simpa using this
  · simp only [List.cons_append, List.append_assoc]
    simp only [parseNum]
    rw [if_pos (by simp)]
    have := spec ['+']
    simpa using this
  · simp only [List.cons_append, List.append_assoc]
    simp only [parseNum]
    rw [if_pos (by simp)]
    have := spec ['-']
    simpa using this

/-- Shape and scanning facts of each unit token, uniform over the table. -/
theorem unit_facts (u : List Char) (hu : u ∈ unitTokens) :
    ∃ a t, u = a :: t ∧ isDigitChar a = false ∧ a ≠ '.' ∧ a ≠ ',' ∧
      u.dropWhile isJsSpace = u ∧ parseUnit u = some (u, []) := by
  simp only [unitTokens, List.mem_cons, List.not_mem_nil, or_false] at hu
  rcases hu with rfl | rfl | rfl | rfl | rfl | rfl | rfl | rfl | rfl
  exacts [⟨'p', chars "t", by decide⟩, ⟨'e', chars "m", by decide⟩,
    ⟨'e', chars "x", by decide⟩, ⟨'m', chars "u", by decide⟩,
    ⟨'p', chars "x", by decide⟩, ⟨'m', chars "m", by decide⟩,
    ⟨'c', chars "m", by decide⟩, ⟨'i', chars "n", by decide⟩,
    ⟨'p', chars "c", by decide⟩]

/-- The `dimenEnd` match on a valid dimension literal without any
whitespace: sign, digits, optional separator and fraction, unit. -/
theorem matchDimenEnd_valid (sgn ds sepFs u : List Char)
    (hsgn : sgn = [] ∨ sgn = ['+'] ∨ sgn = ['-'])
    (hds : ds ≠ []) (hdig : ∀ c ∈ ds, isDigitChar c = true)
    (hsep : sepFs = [] ∨ ∃ c fs, (c = '.' ∨ c = ',') ∧
      (∀ d ∈ fs, isDigitChar d = true) ∧ sepFs = c :: fs)
    (hu : u ∈ unitTokens) :
    matchDimenEnd (sgn ++ ds ++ sepFs ++ u) =
      some (sgn ++ ds ++ sepFs, u, (sgn ++ ds ++ sepFs ++ u).length) := by
  obtain ⟨a, t, hu_eq, ha1, ha2, ha3, hdw, hpu⟩ := unit_facts u hu
  have hp := parseNum_valid sgn ds sepFs a t hsgn hds hdig hsep ha1 ha2 ha3
  rw [← hu_eq] at hp
  have h1 : (sgn ++ ds ++ sepFs ++ u).dropWhile isJsSpace =
      sgn ++ ds ++ sepFs ++ u := by
    obtain ⟨d, ds', rfl⟩ : ∃ d ds', ds = d :: ds' := by
      cases ds with
      | nil => exact absurd rfl hds
      | cons d ds' => exact ⟨d, ds', rfl⟩
    obtain ⟨hd1, -, -, -, -⟩ := digit_excludes (hdig d (by simp))
    rcases hsgn with rfl | rfl | rfl
    · simp [List.dropWhile_cons, hd1]
    · simp [List.dropWhile_cons, hd1, show isJsSpace '+' = false by decide]
    · simp [List.dropWhile_cons, hd1, show isJsSpace '-' = false by decide]
  simp only [matchDimenEnd, h1, hp, hdw, hpu]
  simp

/-- Successful branch of `dimen2em`: a matched dimension applies the unit's
conversion to the parsed numeral. -/
theorem dimen2em_eq (dim v u : List Char) (n : Nat) (f : ℚ → ℚ)
    (h : matchDimen dim false = some (v, u, n)) (hf : UNIT_CASES u = some f) :
    dimen2em dim = f (parseFloatQ v) := by
  simp only [dimen2em, h, hf, Option.some_bind]
  rfl

/-- Failing branch of `dimen2em`: no match leaves the unit entry absent and
the result is `0`. -/
theorem dimen2em_none (dim : List Char) (h : matchDimen dim false = none) :
    dimen2em dim = 0 := by
  simp only [dimen2em, h, Option.map_none, Option.none_bind]

/-- Evaluation of `parseFloatQ` through its discrete part. -/
theorem parseFloatQ_eq (s : List Char) (neg : Bool) (ip fn fl : Nat)
    (h : parseFloatParts s = (neg, ip, fn, fl)) :
    parseFloatQ s =
      (if neg then -1 else 1) * ((ip : ℚ) + (fn : ℚ) / (10 : ℚ) ^ fl) := by
  simp only [parseFloatQ, h]

/-! ## The claims -/

/-- C1: scanning `"a $b$ c"` produces exactly the three segments Text("a "),
island("b"), Text(" c") in order (the Text contents carrying the
scanner's edge-whitespace normalisation to NBSP); and in general a second
dollar delimiter at brace depth 0 closes a DollarMath island — the
bounded substring is handed to the island parser, the result is wrapped
as an island segment, and the mode returns to Plain. -/
theorem C1_dollar_math_island :
    internalMathSegments (chars "a $b$ c") =
      Except.ok [Segment.mtext (internalText (chars "a ")),
                 Segment.texAtom (chars "b"),
                 Segment.mtext (internalText (chars " c"))] ∧
    internalText (chars "a ") = chars "a\u00A0" ∧
    internalText (chars " c") = chars "\u00A0c" ∧
    ∀ (fuel : Nat) (rest pending : List Char) (mml : List Segment),
      scanLoop (fuel + 1) ('$' :: rest) pending Mode.dollar 0 mml =
        scanLoop fuel rest [] Mode.plain 0
          (mml ++ [Segment.texAtom pending.reverse]) :=
  ⟨by decide, by decide, by decide, fun fuel rest pending mml => rfl⟩

/-- C2: scanning `"a $b"` hits end of input inside DollarMath and raises
`MathNotTerminated` (the spec's UnterminatedNotationIsland), delivering no
segments; and in general reaching end of input in any non-Plain mode
yields that error, discarding every already-flushed segment (the error
value carries no segment list). -/
theorem C2_unterminated_island :
    internalMathSegments (chars "a $b") =
      Except.error TexError.MathNotTerminated ∧
    ∀ (fuel braces : Nat) (pending : List Char) (mml : List Segment),
      scanLoop (fuel + 1) [] pending Mode.dollar braces mml =
          Except.error TexError.MathNotTerminated ∧
      scanLoop (fuel + 1) [] pending Mode.paren braces mml =
          Except.error TexError.MathNotTerminated ∧
      scanLoop (fuel + 1) [] pending Mode.brace braces mml =
          Except.error TexError.MathNotTerminated :=
  ⟨by decide, fun fuel braces pending mml => ⟨rfl, rfl, rfl⟩⟩

/-- C3: scanning `"a \$ b"` yields the single Text segment `"a $ b"` with a
literal dollar and no island; and in general, in Plain mode an escape
followed by one of the four delimiter-trigger characters (which never
opens an island) is consumed as a literal escape: the escape is stripped,
the character is kept as ordinary span text, and the mode stays Plain. -/
theorem C3_literal_escape :
    internalMathSegments (chars "a \\$ b") =
      Except.ok [Segment.mtext (chars "a $ b")] ∧
    ∀ (fuel braces : Nat) (rest pending : List Char) (mml : List Segment)
      (c : Char), isTriggerChar c = true →
      scanLoop (fuel + 1) ('\\' :: c :: rest) pending Mode.plain braces mml =
        scanLoop fuel rest (c :: pending) Mode.plain braces mml := by
  refine ⟨by decide, fun fuel braces rest pending mml c hc => ?_⟩
  simp only [isTriggerChar, Bool.or_eq_true, decide_eq_true_eq] at hc
  rcases hc with ((rfl | rfl) | rfl) | rfl <;> rfl

/-- Witness for C3 at the concrete trigger character `$`. -/
theorem C3_literal_escape_witness :
    scanLoop 1 ('\\' :: '$' :: []) [] Mode.plain 0 [] =
      scanLoop 0 [] ['$'] Mode.plain 0 [] :=
  C3_literal_escape.2 0 0 [] [] [] '$' (by decide)

/-- C4 counterexample: the empty string has no trigger character yet yields
zero segments, and the one-space string has no trigger character yet
yields a Text segment whose content is the NBSP normalisation, not the
input itself — so the claim fails as stated on both inputs. -/
theorem C4_counterexample :
    hasTriggerChar (chars "") = false ∧
    internalMathSegments (chars "") = Except.ok [] ∧
    hasTriggerChar (chars " ") = false ∧
    internalMathSegments (chars " ") =
      Except.ok [Segment.mtext (chars "\u00A0")] ∧
    chars "\u00A0" ≠ chars " " := by
  refine ⟨by decide, by decide, by decide, by decide, by decide⟩

/-- C4 as amended: every nonempty input without trigger characters yields
exactly one Text segment whose content is the input with its leading and
trailing whitespace runs each collapsed to one non-breaking space. -/
theorem C4_no_trigger_single_text (text : List Char) (h1 : text ≠ [])
    (h2 : hasTriggerChar text = false) :
    internalMathSegments text =
      Except.ok [Segment.mtext (internalText text)] := by
  simp only [internalMathSegments, h2, Bool.false_eq_true, if_false, flushText]
  rw [if_neg (by simp [h1])]
  simp

/-- Witness for the amended C4 on the trigger-free input `"hello"`. -/
theorem C4_no_trigger_single_text_witness :
    internalMathSegments (chars "hello") =
      Except.ok [Segment.mtext (internalText (chars "hello"))] :=
  C4_no_trigger_single_text (chars "hello") (by decide) (by decide)

/-- The placeholder branch of the substitution loop: an in-range digit
flushes the pending text and appends the selected argument through
`addArgs`. -/
theorem substLoop_placeholder (args : List (List Char))
    (rest text ns : List Char) (c : Char)
    (h1 : isParamDigit c = true) (h2 : c.toNat - 48 ≤ args.length) :
    substLoop args ('#' :: c :: rest) text ns =
      (addArgs ns text).bind fun ns1 =>
        (addArgs ns1 (args.getD (c.toNat - 48 - 1) [])).bind fun ns2 =>
          substLoop args rest [] ns2 := by
  have hc : ¬ (c = '#') := by
    intro he
    subst he
    exact absurd h1 (by decide)
  simp only [substLoop]
  rw [if_neg hc, if_pos ⟨h1, h2⟩]

/-- C5: `substituteArgs(["X","Y"], "#1-#2-##")` returns `"X-Y-#"`; and in
general the loop copies an escape character plus its successor verbatim
(so an escaped placeholder-looking character is never substituted), turns
`##` into a literal `#`, and replaces `#d` for an in-range digit `d` by
the 1-indexed argument `d`, through the concatenation helper. -/
theorem C5_substitute_args :
    substituteArgs [chars "X", chars "Y"] (chars "#1-#2-##") =
      Except.ok (chars "X-Y-#") ∧
    (∀ (args : List (List Char)) (rest text ns : List Char) (c : Char),
      substLoop args ('\\' :: c :: rest) text ns =
        substLoop args rest (text ++ ['\\', c]) ns) ∧
    (∀ (args : List (List Char)) (rest text ns : List Char),
      substLoop args ('#' :: '#' :: rest) text ns =
        substLoop args rest (text ++ ['#']) ns) ∧
    (∀ (args : List (List Char)) (rest text ns : List Char) (c : Char),
      isParamDigit c = true → c.toNat - 48 ≤ args.length →
      substLoop args ('#' :: c :: rest) text ns =
        (addArgs ns text).bind fun ns1 =>
          (addArgs ns1 (args.getD (c.toNat - 48 - 1) [])).bind fun ns2 =>
            substLoop args rest [] ns2) := by
  exact ⟨by decide, fun args rest text ns c => rfl, fun args rest text ns => rfl,
    fun args rest text ns c h1 h2 =>
      substLoop_placeholder args rest text ns c h1 h2⟩

/-- Witness for C5's placeholder law at `#1` with one argument. -/
theorem C5_substitute_args_witness :
    substLoop [chars "A"] ('#' :: '1' :: []) [] [] =
      (addArgs [] []).bind fun ns1 =>
        (addArgs ns1 ([chars "A"].getD 0 [])).bind fun ns2 =>
          substLoop [chars "A"] [] [] ns2 :=
  C5_substitute_args.2.2.2 [chars "A"] [] [] [] '1' (by decide) (by decide)

/-- The buffer guard of `addArgs`: any concatenation whose combined length
already exceeds `MAXBUFFER` fails, with or without the inserted space. -/
theorem addArgs_overflow (s1 s2 : List Char)
    (h : MAXBUFFER < s1.length + s2.length) :
    addArgs s1 s2 = Except.error TexError.MaxBufferSize := by
  simp only [addArgs]
  by_cases hb : (beginsWithLetter s2 = true ∧ endsWithCtrlWord s1 = true)
  · rw [if_pos hb, if_pos (by simp only [List.length_append,
      List.length_cons, List.length_nil]; omega)]
  · rw [if_neg hb, if_pos (by omega)]

/-- C6: an out-of-range placeholder digit raises `IllegalMacroParam` (the
spec's IllegalMacroParameter) — concretely `substituteArgs(["X"], "#2")`
— and the concatenation guard raises `MaxBufferSize` (the spec's
MacroBufferOverflow) whenever the accumulated length passes
`5 * 1024 = 5120` characters, both as raised errors, not normal
returns. -/
theorem C6_substitute_errors :
    substituteArgs [chars "X"] (chars "#2") =
      Except.error TexError.IllegalMacroParam ∧
    substituteArgs [List.replicate 5121 'a'] (chars "#1") =
      Except.error TexError.MaxBufferSize ∧
    (∀ (args : List (List Char)) (rest text ns : List Char) (c : Char),
      isParamDigit c = true → args.length < c.toNat - 48 →
      substLoop args ('#' :: c :: rest) text ns =
        Except.error TexError.IllegalMacroParam) ∧
    (∀ s1 s2 : List Char, MAXBUFFER < s1.length + s2.length →
      addArgs s1 s2 = Except.error TexError.MaxBufferSize) := by
  refine ⟨by decide, ?_, fun args rest text ns c h1 h2 => ?_, addArgs_overflow⟩
  · have hbig : addArgs [] (List.replicate 5121 'a') =
        Except.error TexError.MaxBufferSize :=
      addArgs_overflow [] (List.replicate 5121 'a')
        (by simp only [List.length_nil, List.length_replicate, MAXBUFFER]; norm_num)
    calc substituteArgs [List.replicate 5121 'a'] (chars "#1")
        = substLoop [List.replicate 5121 'a'] ('#' :: '1' :: []) [] [] := rfl
      _ = (addArgs [] []).bind fun ns1 =>
            (addArgs ns1 ([List.replicate 5121 'a'].getD ('1'.toNat - 48 - 1) [])).bind
              fun ns2 => substLoop [List.replicate 5121 'a'] [] [] ns2 :=
          substLoop_placeholder [List.replicate 5121 'a'] [] [] [] '1' (by decide)
            (by simp only [List.length_singleton]; decide)
      _ = (addArgs [] (List.replicate 5121 'a')).bind
            (fun ns2 => substLoop [List.replicate 5121 'a'] [] [] ns2) := by
          rw [show addArgs ([] : List Char) ([] : List Char) =
            Except.ok ([] : List Char) from by decide]
          simp only [Except.bind]
          rw [show [List.replicate 5121 'a'].getD ('1'.toNat - 48 - 1)
            ([] : List Char) = List.replicate 5121 'a' from rfl]
      _ = Except.error TexError.MaxBufferSize := by
          rw [hbig]
          rfl
  · have hc : ¬ (c = '#') := by
      intro he
      subst he
      exact absurd h1 (by decide)
    simp only [substLoop]
    rw [if_neg hc, if_neg (by omega)]

/-- Witness for C6's two general laws at concrete inputs. -/
theorem C6_substitute_errors_witness :
    substLoop [] ('#' :: '5' :: []) [] [] =
      Except.error TexError.IllegalMacroParam ∧
    addArgs (List.replicate 3000 'a') (List.replicate 3000 'a') =
      Except.error TexError.MaxBufferSize :=
  ⟨C6_substitute_errors.2.2.1 [] [] [] [] '5' (by decide) (by decide),
   C6_substitute_errors.2.2.2 (List.replicate 3000 'a') (List.replicate 3000 'a')
     (by simp only [List.length_replicate, MAXBUFFER]; norm_num)⟩

/-- C10: an unescaped `#` followed by anything other than a digit `1`-`9`
or a second `#` — including the digit `0`, a letter, or the end of the
body — raises `IllegalMacroParam` and is never passed through as literal
text (the loop returns the error, not a segment of output). -/
theorem C10_bad_placeholder :
    (∀ (args : List (List Char)) (rest text ns : List Char) (c : Char),
      isParamDigit c = false → c ≠ '#' →
      substLoop args ('#' :: c :: rest) text ns =
        Except.error TexError.IllegalMacroParam) ∧
    (∀ (args : List (List Char)) (text ns : List Char),
      substLoop args ('#' :: []) text ns =
        Except.error TexError.IllegalMacroParam) ∧
    substituteArgs [chars "X"] (chars "#0") =
      Except.error TexError.IllegalMacroParam ∧
    substituteArgs [chars "X"] (chars "#x") =
      Except.error TexError.IllegalMacroParam ∧
    substituteArgs [chars "X"] (chars "#") =
      Except.error TexError.IllegalMacroParam := by
  refine ⟨fun args rest text ns c h1 h2 => ?_, fun args text ns => rfl,
    by decide, by decide, by decide⟩
  simp only [substLoop]
  rw [if_neg h2, if_neg (by simp [h1])]

/-- Witness for C10 at the non-digit continuation `z`. -/
theorem C10_bad_placeholder_witness :
    substLoop [chars "X"] ('#' :: 'z' :: []) [] [] =
      Except.error TexError.IllegalMacroParam :=
  C10_bad_placeholder.1 [chars "X"] [] [] [] 'z' (by decide) (by decide)

/-- C7: every valid dimension literal — optional sign, digits, optional
single point-or-comma separator with optional fraction digits, and a
recognised unit — is matched by `matchDimen` with `allowTrailing = false`,
returning the numeral with a comma normalised to a point, the unit token,
and a matched length equal to the full input length; a non-matching
string yields the absent result (`none`; the function is total, so no
exception is possible). -/
theorem C7_match_dimen :
    (∀ (sgn ds sepFs u : List Char),
      (sgn = [] ∨ sgn = ['+'] ∨ sgn = ['-']) →
      ds ≠ [] → (∀ c ∈ ds, isDigitChar c = true) →
      (sepFs = [] ∨ ∃ c fs, (c = '.' ∨ c = ',') ∧
        (∀ d ∈ fs, isDigitChar d = true) ∧ sepFs = c :: fs) →
      u ∈ unitTokens →
      matchDimen (sgn ++ ds ++ sepFs ++ u) false =
        some (replaceFirstComma (sgn ++ ds ++ sepFs), u,
              (sgn ++ ds ++ sepFs ++ u).length)) ∧
    matchDimen (chars "3xyz") false = none ∧
    matchDimen (chars "pt") false = none := by
  refine ⟨fun sgn ds sepFs u h1 h2 h3 h4 h5 => ?_, by decide, by decide⟩
  have h := matchDimenEnd_valid sgn ds sepFs u h1 h2 h3 h4 h5
  simp only [matchDimen, Bool.false_eq_true, if_false, h]
  rfl

/-- Witness for C7 on the literal `"-12,5pt"`. -/
theorem C7_match_dimen_witness :
    matchDimen (['-'] ++ chars "12" ++ chars ",5" ++ chars "pt") false =
      some (replaceFirstComma (['-'] ++ chars "12" ++ chars ",5"), chars "pt",
        (['-'] ++ chars "12" ++ chars ",5" ++ chars "pt").length) :=
  C7_match_dimen.1 ['-'] (chars "12") (chars ",5") (chars "pt")
    (Or.inr (Or.inr rfl)) (by decide) (by decide)
    (Or.inr ⟨',', chars "5", by decide, by decide, rfl⟩) (by decide)

/-- C8 counterexample: the claim's default magnitude of 1 for an omitted
numeral would give `dimen2em("em") = 1`, but the matcher requires a
numeral, so `"em"` fails the match and the code returns 0. -/
theorem C8_counterexample :
    dimen2em (chars "em") = 0 ∧ (0 : ℚ) ≠ 1 :=
  ⟨dimen2em_none (chars "em") (by decide), by norm_num⟩

/-- C8 as amended: `dimen2em` parses with `allowTrailing = false` and
multiplies the parsed magnitude by the unit's fixed em-ratio
(`dimen2em("2pt") = 0.2`, `dimen2em("1in") = 7.2`); the internal numeral
default of `'1'` is dead code, because an input with the numeral omitted
never matches and therefore yields 0, exactly as an unrecognised unit
does (`dimen2em("3xyz") = 0`, `dimen2em("em") = 0`). -/
theorem C8_dimen2em :
    dimen2em (chars "2pt") = 0.2 ∧
    dimen2em (chars "1in") = 7.2 ∧
    dimen2em (chars "3xyz") = 0 ∧
    dimen2em (chars "em") = 0 ∧
    (∀ (dim v u : List Char) (n : Nat) (f : ℚ → ℚ),
      matchDimen dim false = some (v, u, n) → UNIT_CASES u = some f →
      dimen2em dim = f (parseFloatQ v)) ∧
    (∀ dim : List Char, matchDimen dim false = none → dimen2em dim = 0) := by
  refine ⟨?_, ?_, dimen2em_none _ (by decide), dimen2em_none _ (by decide),
    dimen2em_eq, dimen2em_none⟩
  · rw [dimen2em_eq (chars "2pt") (chars "2") (chars "pt") 3 (fun m => m / 10)
      (by decide) rfl,
      parseFloatQ_eq (chars "2") false 2 0 0 (by decide)]
    norm_num
  · rw [dimen2em_eq (chars "1in") (chars "1") (chars "in") 3
      (fun m => m * emPerInch) (by decide) rfl,
      parseFloatQ_eq (chars "1") false 1 0 0 (by decide)]
    norm_num [emPerInch]

/-- Witness for C8's successful-match law on `"2pt"`. -/
theorem C8_dimen2em_witness :
    dimen2em (chars "2pt") = (fun m : ℚ => m / 10) (parseFloatQ (chars "2")) :=
  C8_dimen2em.2.2.2.2.1 (chars "2pt") (chars "2") (chars "pt") 3
    (fun m => m / 10) (by decide) rfl

/-- C9: `Em` renders a magnitude to three decimals with the trailing zeros
and a trailing point stripped, suffixed `em` (`Em 1 = "1em"`,
`Em 1.25 = "1.25em"`), and every magnitude of absolute value strictly
below 0.0006 collapses to the zero literal (`Em 0.00059 = "0em"`). -/
theorem C9_em_format :
    Em 0.00059 = chars "0em" ∧ Em 1 = chars "1em" ∧
    Em 1.25 = chars "1.25em" ∧
    (∀ q : ℚ, |q| < 0.0006 → Em q = chars "0em") := by
  have hgen : ∀ q : ℚ, |q| < 0.0006 → Em q = chars "0em" := by
    intro q h
    simp only [Em]
    rw [if_pos h]
  refine ⟨hgen 0.00059 (by rw [abs_of_nonneg (by norm_num)]; norm_num), ?_, ?_, hgen⟩
  · have h0 : ¬ (|(1 : ℚ)| < 0.0006) := by
      rw [abs_of_nonneg (by norm_num)]
      norm_num
    have h1 : toFixed3Nat 1 = 1000 := by
      unfold toFixed3Nat
      rw [abs_of_nonneg (by norm_num)]
      norm_num
      decide
    have h2 : ¬ ((1 : ℚ) < 0) := by norm_num
    simp only [Em, h0, if_false, toFixed3, h1, h2]
    decide
  · have h0 : ¬ (|(1.25 : ℚ)| < 0.0006) := by
      rw [abs_of_nonneg (by norm_num)]
      norm_num
    have h1 : toFixed3Nat 1.25 = 1250 := by
      unfold toFixed3Nat
      rw [abs_of_nonneg (by norm_num)]
      norm_num
      decide
    have h2 : ¬ ((1.25 : ℚ) < 0) := by norm_num
    simp only [Em, h0, if_false, toFixed3, h1, h2]
    decide

/-- Witness for C9's collapse threshold at the magnitude 0.0001. -/
theorem C9_em_format_witness : Em 0.0001 = chars "0em" :=
  C9_em_format.2.2.2 0.0001 (by rw [abs_of_nonneg (by norm_num)]; norm_num)
